import Mathlib

/-!
Verification of the conversation-correlation cache and the streaming bridge of
the `aipi` repository (`src/cache.py`, `src/bridge.py`).

The SQLite database of `ConversationCache` is embedded as two Lean lists that
mirror the `conversations` and `messages` tables; list order models rowid
order (SQLite returns rows of these queries in insertion order, and `fetchone`
takes the first row).  Timestamps are kept as the strings the code actually
writes and compares: SQLite `CURRENT_TIMESTAMP` produces `YYYY-MM-DD HH:MM:SS`
(UTC) and `datetime.now().isoformat()` produces `YYYY-MM-DDTHH:MM:SS.ffffff`
(local time); the SQL comparison `last_used < ?` on a TEXT value is a bytewise
string comparison, embedded below as lexicographic comparison of the character
lists.  Each Python method becomes a pure function; a method that only runs
`SELECT` statements returns the database unchanged, a method whose `INSERT`
can violate a constraint (and whose transaction is then rolled back by the
`async with` block closing without `commit`) returns an `Option` state.
-/

namespace Aipi

/-- A chat message as the code passes it around (`{'role': ..., 'content': ...}`). -/
structure Message where
  role : String
  content : String
deriving Repr, DecidableEq

/-- A row of the `conversations` table of `src/cache.py` (`init_db`); the
`created_at` column is set once and never read by any operation, so it is
omitted. -/
structure ConvRow where
  conversation_hash : String
  web_chat_url : String
  model : String
  last_used : String
deriving Repr, DecidableEq

/-- A row of the `messages` table of `src/cache.py` (`init_db`); the
auto-increment `id` and the `timestamp` column are never read by any
operation, so they are omitted and insertion order is the list order. -/
structure MsgRow where
  conversation_hash : String
  role : String
  content : String
deriving Repr, DecidableEq

/-- The SQLite database state of `ConversationCache`. -/
structure DB where
  conversations : List ConvRow
  messages : List MsgRow
deriving Repr, DecidableEq

/-- `ConversationCache.generate_conversation_hash` (src/cache.py:52-57):
builds `f"{model}:"` and appends `f"{msg['role']}:{msg['content']};"` for each
message, then returns the sha256 hexdigest of that string.  The digest is a
deterministic function of the serialized string, so the sha256 step is
embedded as the identity on the serialization: two calls return the same
digest exactly when their serializations coincide (sha256 collisions on
distinct serializations are not modelled). -/
def generate_conversation_hash (messages : List Message) (model : String) : String :=
  messages.foldl (fun s msg => s ++ msg.role ++ ":" ++ msg.content ++ ";") (model ++ ":")

/-- `ConversationCache.find_matching_conversation` (src/cache.py:59-72):
returns `None` when `messages[:-1]` is empty, otherwise hashes `messages[:-1]`
and runs a single `SELECT web_chat_url ... WHERE conversation_hash = ?`,
returning the first row's URL if any.  The second component is the database
after the call: the body runs only `SELECT`, so it is returned as-is. -/
def find_matching_conversation (db : DB) (messages : List Message) (model : String) :
    Option String × DB :=
  if messages.dropLast = [] then (none, db)
  else
    let h := generate_conversation_hash messages.dropLast model
    (((db.conversations.find? fun r => r.conversation_hash == h).map fun r => r.web_chat_url), db)

/-- `ConversationCache.store_conversation` (src/cache.py:74-96): hashes the
full message list, inserts one `conversations` row (`last_used` set to the
current SQLite timestamp, passed here as `now`) and one `messages` row per
entry, then commits.  `conversation_hash` is the table's PRIMARY KEY, so the
first `INSERT` raises `IntegrityError` when the hash is already present; the
connection then closes without `commit` and the whole transaction rolls back,
embedded as the `none` result (no new state — the caller's state persists
unchanged). -/
def store_conversation (db : DB) (messages : List Message) (model web_chat_url now : String) :
    Option DB :=
  let h := generate_conversation_hash messages model
  if db.conversations.any (fun r => r.conversation_hash == h) then none
  else some
    { conversations := db.conversations ++ [⟨h, web_chat_url, model, now⟩]
      messages := db.messages ++ messages.map fun m => ⟨h, m.role, m.content⟩ }

/-- `ConversationCache.update_conversation` (src/cache.py:98-125): first runs
`UPDATE conversations SET last_used = CURRENT_TIMESTAMP WHERE web_chat_url = ?`
(touching every row whose URL matches, a no-op when none does), then selects
the first `conversation_hash` for that URL; if no row is found it returns
before inserting anything, otherwise it appends the caller's message and an
`assistant` row carrying the response, and commits. -/
def update_conversation (db : DB) (web_chat_url : String) (new_message : Message)
    (response_content now : String) : DB :=
  let convs := db.conversations.map fun r =>
    if r.web_chat_url == web_chat_url then { r with last_used := now } else r
  match db.conversations.find? (fun r => r.web_chat_url == web_chat_url) with
  | none => { db with conversations := convs }
  | some row =>
    { conversations := convs
      messages := db.messages ++
        [⟨row.conversation_hash, new_message.role, new_message.content⟩,
         ⟨row.conversation_hash, "assistant", response_content⟩] }

/-- One `DELETE FROM messages WHERE conversation_hash = ?` followed by
`DELETE FROM conversations WHERE conversation_hash = ?` for a single hash, as
executed inside the loop of `_periodic_cleanup` (src/cache.py:141-151). -/
def delete_conversation_rows (db : DB) (h : String) : DB :=
  { conversations := db.conversations.filter fun r => !(r.conversation_hash == h)
    messages := db.messages.filter fun m => !(m.conversation_hash == h) }

/-- One sweep of `ConversationCache._periodic_cleanup` (src/cache.py:127-161):
selects the hashes of all conversations with `last_used < cutoff_iso`, where
`cutoff_iso` is `(datetime.now() - timedelta(seconds=max_age)).isoformat()`,
then deletes each one's messages and conversation row and commits.  The SQL
`<` compares the stored TEXT timestamp with the bound TEXT parameter bytewise,
embedded as lexicographic comparison of the character data. -/
def periodic_cleanup_sweep (db : DB) (cutoff_iso : String) : DB :=
  let old := (db.conversations.filter fun r =>
    decide (r.last_used.data < cutoff_iso.data)).map fun r => r.conversation_hash
  old.foldl delete_conversation_rows db

/-- Python's `s[n:]` on a string: drop the first `n` code points (Python
strings are sequences of code points, embedded as the character list). -/
def pySlice (s : String) (n : Nat) : String :=
  String.mk (s.data.drop n)

/-- The observable result of the polling loop of `LLMWebBridge.stream_response`
(src/bridge.py:418-449): the increments yielded, the final value of
`prev_content`, the `response_complete` flag and the final
`complete_wait_count`. -/
structure StreamResult where
  increments : List String
  prev : String
  complete : Bool
  count : Nat
deriving Repr, DecidableEq

/-- The polling loop of `LLMWebBridge.stream_response` (src/bridge.py:425-446),
run against a trace of page observations: each trace entry is one loop
iteration's `(latest_response.text_content(), completion marker present?)`
pair.  Per the code: while `not response_complete and complete_wait_count <
50`, read the text; if it changed, reset the counter to 0, yield the slice
`current[len(prev):]` when non-empty, and set `prev` to it; then check the
`.response-complete-indicator` element — if present mark complete and stop,
otherwise increment the counter and poll again.  An exhausted trace ends the
run in its current state. -/
def stream_loop : List (String × Bool) → String → Nat → StreamResult
  | [], prev, count => ⟨[], prev, false, count⟩
  | (cur, marker) :: rest, prev, count =>
    if count < 50 then
      let new_content := pySlice cur prev.length
      let emitted : List String :=
        if cur = prev then [] else if new_content = "" then [] else [new_content]
      let prev' := if cur = prev then prev else cur
      let count' := if cur = prev then count else 0
      if marker then ⟨emitted, prev', true, count'⟩
      else
        let r := stream_loop rest prev' (count' + 1)
        ⟨emitted ++ r.increments, r.prev, r.complete, r.count⟩
    else ⟨[], prev, false, count⟩

/-- Concatenation of yielded increments, in order. -/
def concat_increments (l : List String) : String :=
  l.foldr (fun a b => a ++ b) ""

/-- Driver-level actions of `LLMWebBridge`, as observed through the
playwright page: `sendSingle` is one `_send_single_message` call
(src/bridge.py:308-344, fill + Enter + wait for the response element and read
its text), `waitComplete` is the `wait_for_selector('.response-complete-indicator')`
after a replayed turn, and `submitFinal` is the inline fill + Enter of the
final message inside `stream_response` (src/bridge.py:407-409). -/
inductive Action where
  | sendSingle (content : String)
  | waitComplete
  | submitFinal (content : String)
deriving Repr, DecidableEq

/-- The replay loop shared by `send_message` (src/bridge.py:350-358) and
`stream_response` (src/bridge.py:384-391): `for msg in full_messages[:-1]:
if msg['role'] == 'user': await self._send_single_message(msg['content']);
await page.wait_for_selector('.response-complete-indicator', ...)`. -/
def replay_prior_user_turns (full_messages : List Message) : List Action :=
  full_messages.dropLast.foldl
    (fun acts msg =>
      if msg.role == "user" then acts ++ [Action.sendSingle msg.content, Action.waitComplete]
      else acts)
    []

/-- Observable outcome of `LLMWebBridge.send_message`: the driver actions it
performed, the text it returns, and the cache state after its
`update_conversation` call. -/
structure SendOutcome where
  actions : List Action
  response : String
  db : DB
deriving Repr, DecidableEq

/-- `LLMWebBridge.send_message` (src/bridge.py:346-378): when `is_new_chat`
and `full_messages` is truthy (a non-`None`, non-empty list), replay the prior
user turns; then send the final message through `_send_single_message` (whose
page-read response text is the environment input `final_response`), call
`ConversationCache.update_conversation(chat_url, {'role': 'user', 'content':
message}, response_text)` and return the response text.  `now` is the SQLite
timestamp of the update. -/
def send_message (db : DB) (now message : String) (is_new_chat : Bool) (chat_url : String)
    (full_messages : Option (List Message)) (final_response : String) : SendOutcome :=
  let replay :=
    match full_messages with
    | some l => if is_new_chat && !l.isEmpty then replay_prior_user_turns l else []
    | none => []
  { actions := replay ++ [Action.sendSingle message]
    response := final_response
    db := update_conversation db chat_url ⟨"user", message⟩ final_response now }

/-- Observable outcome of `LLMWebBridge.stream_response`: driver actions,
yielded increments, whether the post-loop timeout warning was logged, the
loop's completion flag, and the cache state after the final
`update_conversation` call. -/
structure StreamOutcome where
  actions : List Action
  increments : List String
  warned : Bool
  complete : Bool
  db : DB
deriving Repr, DecidableEq

/-- `LLMWebBridge.stream_response` (src/bridge.py:380-456): same replay
precondition as `send_message`, then submit the final message, run the polling
loop over the page-observation trace `polls`, log a warning iff
`complete_wait_count >= max_complete_wait` afterwards, and unconditionally
call `ConversationCache.update_conversation(chat_url, {'role': 'user',
'content': message}, prev_content)` with the assembled text. -/
def stream_response (db : DB) (now message : String) (is_new_chat : Bool) (chat_url : String)
    (full_messages : Option (List Message)) (polls : List (String × Bool)) : StreamOutcome :=
  let replay :=
    match full_messages with
    | some l => if is_new_chat && !l.isEmpty then replay_prior_user_turns l else []
    | none => []
  let r := stream_loop polls "" 0
  { actions := replay ++ [Action.submitFinal message]
    increments := r.increments
    warned := decide (50 ≤ r.count)
    complete := r.complete
    db := update_conversation db chat_url ⟨"user", message⟩ r.prev now }

/-! ### General helper lemmas -/

/-- `find?` skips a whole prefix on which the predicate is false. -/
theorem find?_append_of_forall_false {α : Type} (p : α → Bool) (l₁ l₂ : List α)
    (h : ∀ a ∈ l₁, p a = false) : (l₁ ++ l₂).find? p = l₂.find? p := by
  induction l₁ with
  | nil => rfl
  | cons a t ih =>
    have ha : p a = false := h a (List.mem_cons_self a t)
    simp only [List.cons_append, List.find?, ha]
    exact ih fun x hx => h x (List.mem_cons_of_mem a hx)

/-- Mapping a conditional rewrite over a list none of whose elements satisfy
the condition leaves the list unchanged. -/
theorem map_ite_of_forall_false {α : Type} (p : α → Bool) (f : α → α) (l : List α)
    (h : ∀ a ∈ l, p a = false) : (l.map fun a => if p a then f a else a) = l := by
  induction l with
  | nil => rfl
  | cons a t ih =>
    have ha : p a = false := h a (List.mem_cons_self a t)
    simp only [List.map_cons, ha, Bool.false_eq_true, if_false, List.cons.injEq, true_and]
    exact ih fun x hx => h x (List.mem_cons_of_mem a hx)

/-- A list of length at most one has an empty `dropLast`. -/
theorem dropLast_eq_nil_of_length_lt_two {α : Type} (l : List α) (h : l.length < 2) :
    l.dropLast = [] := by
  cases l with
  | nil => rfl
  | cons a t =>
    cases t with
    | nil => rfl
    | cons b u => exact absurd h (by simp)

/-! ### Claim C9 -/

/-- Claim C9: for every model and every message list containing fewer than two
messages (including the empty list), `find_matching_conversation` returns
none, regardless of the cache's contents. -/
theorem find_matching_short_history (db : DB) (messages : List Message) (model : String)
    (h : messages.length < 2) :
    (find_matching_conversation db messages model).1 = none := by
  simp [find_matching_conversation, dropLast_eq_nil_of_length_lt_two messages h]

/-- Witness for C9: a single-message history misses even when the cache holds
a conversation hashed from exactly that message. -/
theorem find_matching_short_history_witness :
    (find_matching_conversation
        ⟨[⟨generate_conversation_hash [⟨"user", "hi"⟩] "m", "u", "m", "t0"⟩], []⟩
        [⟨"user", "hi"⟩] "m").1 = none :=
  find_matching_short_history _ _ _ (by decide)

/-! ### Claim C10 -/

/-- Claim C10: `find_matching_conversation` is a pure read — it returns the
database (both tables) completely unchanged, so a cache hit never refreshes
`last_used`; only `update_conversation` keeps a conversation alive against
eviction. -/
theorem find_matching_leaves_db_unchanged (db : DB) (messages : List Message) (model : String) :
    (find_matching_conversation db messages model).2 = db := by
  unfold find_matching_conversation
  split <;> rfl

/-! ### Claim C4 -/

/-- Claim C4 failing input: the sweep deletes a conversation that is *not*
older than the configured maximum age.  The conversation was last used at
2026-10-11 23:00:00 UTC (`CURRENT_TIMESTAMP` format); the sweep runs five
hours later at 2026-10-12 04:00:00 UTC with `max_age = 86400`, so the cutoff
`datetime.now() - timedelta(seconds=86400)` is 2026-10-11 04:00:00, rendered
by `isoformat()` as `2026-10-11T04:00:00.000001`.  Five hours idle is far
below the one-day maximum age, yet the bytewise SQL comparison finds
`"2026-10-11 23:00:00" < "2026-10-11T04:00:00.000001"` (at index 10, a space
sorts below `T`), so the conversation and its messages are deleted. -/
theorem cleanup_evicts_recently_used_conversation :
    periodic_cleanup_sweep
        ⟨[⟨"h1", "https://claude.ai/chat/abc", "m", "2026-10-11 23:00:00"⟩],
         [⟨"h1", "user", "hi"⟩]⟩
        "2026-10-11T04:00:00.000001"
      = ⟨[], []⟩ := by decide

/-! ### Claim C2, counterexample -/

/-- Claim C2 counterexample: two (messages, model) pairs that differ in
content (one message whose content embeds the separators versus two separate
messages) serialize to the identical string `m:r:c1;r:c2;`, so their sha256
digests are identical — the fingerprint is not injective. -/
theorem hash_collision_counterexample :
    generate_conversation_hash [⟨"r", "c1;r:c2"⟩] "m" =
        generate_conversation_hash [⟨"r", "c1"⟩, ⟨"r", "c2"⟩] "m" ∧
      ([⟨"r", "c1;r:c2"⟩] : List Message) ≠ [⟨"r", "c1"⟩, ⟨"r", "c2"⟩] := by
  constructor
  · decide
  · decide

/-! ### Claim C1 -/

/-- Claim C1: after a successful `store_conversation(messages, model, url)`
(length of `messages` at least one), a `find_matching_conversation` on
`messages ++ [newTurn]` for any single new message returns `url`: store
fingerprints the full list while the lookup drops its last entry, so the two
fingerprints coincide. -/
theorem store_then_find_matching_roundtrip (db db' : DB) (messages : List Message)
    (model url now : String) (newTurn : Message) (hne : messages ≠ [])
    (hstore : store_conversation db messages model url now = some db') :
    (find_matching_conversation db' (messages ++ [newTurn]) model).1 = some url := by
  unfold store_conversation at hstore
  by_cases hany : db.conversations.any
      (fun r => r.conversation_hash == generate_conversation_hash messages model) = true
  · simp [hany] at hstore
  · rw [Bool.not_eq_true] at hany
    simp only [hany, Bool.false_eq_true, if_false, Option.some.injEq] at hstore
    subst hstore
    unfold find_matching_conversation
    rw [List.dropLast_concat, if_neg hne]
    simp only
    rw [find?_append_of_forall_false _ _ _ (by
      intro r hr
      rw [Bool.eq_false_iff]
      intro hbeq
      exact absurd (List.any_eq_true.mpr ⟨r, hr, hbeq⟩) (by rw [hany]; simp))]
    simp [List.find?]

/-- Witness for C1: storing the one-message history `user: hi` under model
`m` and URL `u` in an empty cache, then looking up that history extended by
one assistant turn, yields `u`. -/
theorem store_then_find_matching_roundtrip_witness :
    (find_matching_conversation
        ⟨[⟨generate_conversation_hash [⟨"user", "hi"⟩] "m", "u", "m", "t0"⟩],
         [⟨generate_conversation_hash [⟨"user", "hi"⟩] "m", "user", "hi"⟩]⟩
        [⟨"user", "hi"⟩, ⟨"assistant", "yo"⟩] "m").1 = some "u" :=
  store_then_find_matching_roundtrip ⟨[], []⟩ _ [⟨"user", "hi"⟩] "m" "u" "t0"
    ⟨"assistant", "yo"⟩ (by decide) (by decide)

/-! ### Claim C8 -/

/-- Claim C8: a successful `store_conversation` appends exactly one
conversation row keyed by the fingerprint of the full message list, plus one
message row per entry of `messages` preserving role, content and order; a
failed call (the `INSERT` hits the PRIMARY KEY because the fingerprint is
already stored, and the transaction rolls back before its `commit`) yields no
new state at all. -/
theorem store_conversation_atomic_shape (db : DB) (messages : List Message)
    (model url now : String) :
    (∀ db', store_conversation db messages model url now = some db' →
        db'.conversations = db.conversations ++
            [⟨generate_conversation_hash messages model, url, model, now⟩] ∧
        db'.messages = db.messages ++ messages.map fun m =>
            ⟨generate_conversation_hash messages model, m.role, m.content⟩) ∧
    (store_conversation db messages model url now = none →
        db.conversations.any (fun r =>
          r.conversation_hash == generate_conversation_hash messages model) = true) := by
  constructor
  · intro db' hstore
    unfold store_conversation at hstore
    by_cases hany : db.conversations.any
        (fun r => r.conversation_hash == generate_conversation_hash messages model) = true
    · simp [hany] at hstore
    · rw [Bool.not_eq_true] at hany
      simp only [hany, Bool.false_eq_true, if_false, Option.some.injEq] at hstore
      subst hstore
      exact ⟨rfl, rfl⟩
  · intro hnone
    unfold store_conversation at hnone
    by_cases hany : db.conversations.any
        (fun r => r.conversation_hash == generate_conversation_hash messages model) = true
    · exact hany
    · rw [Bool.not_eq_true] at hany
      simp [hany] at hnone

/-- Witness for C8: storing `user: hi` under model `m` in an empty cache
yields exactly the one conversation row and the one message row. -/
theorem store_conversation_atomic_shape_witness :
    (⟨[⟨"m:user:hi;", "u", "m", "t0"⟩], [⟨"m:user:hi;", "user", "hi"⟩]⟩ : DB).conversations =
        [] ++ [⟨generate_conversation_hash [⟨"user", "hi"⟩] "m", "u", "m", "t0"⟩] ∧
    (⟨[⟨"m:user:hi;", "u", "m", "t0"⟩], [⟨"m:user:hi;", "user", "hi"⟩]⟩ : DB).messages =
        [] ++ [⟨"user", "hi"⟩].map fun m : Message =>
          ⟨generate_conversation_hash [⟨"user", "hi"⟩] "m", m.role, m.content⟩ :=
  (store_conversation_atomic_shape ⟨[], []⟩ [⟨"user", "hi"⟩] "m" "u" "t0").1
    ⟨[⟨"m:user:hi;", "u", "m", "t0"⟩], [⟨"m:user:hi;", "user", "hi"⟩]⟩ (by decide)

/-! ### Claim C5 -/

/-- Claim C5: when `update_conversation` is called with a URL stored for some
conversation (the first matching row, as `fetchone` returns it), the message
table grows by exactly two rows for that conversation's hash — the caller's
message then an `assistant` row carrying the response — and every
conversation row with that URL has its `last_used` set to the update's
timestamp; when the URL is unknown, the call returns silently with both
tables completely unchanged. -/
theorem update_conversation_postcondition (db : DB) (url now : String)
    (new_message : Message) (response_content : String) :
    (∀ row, db.conversations.find? (fun r => r.web_chat_url == url) = some row →
        (update_conversation db url new_message response_content now).messages =
          db.messages ++
            [⟨row.conversation_hash, new_message.role, new_message.content⟩,
             ⟨row.conversation_hash, "assistant", response_content⟩] ∧
        ∀ r ∈ (update_conversation db url new_message response_content now).conversations,
          r.web_chat_url = url → r.last_used = now) ∧
    (db.conversations.find? (fun r => r.web_chat_url == url) = none →
        update_conversation db url new_message response_content now = db) := by
  constructor
  · intro row hfind
    unfold update_conversation
    rw [hfind]
    refine ⟨rfl, ?_⟩
    intro r hr hurl
    simp only [List.mem_map] at hr
    obtain ⟨a, _, rfl⟩ := hr
    by_cases hb : a.web_chat_url == url
    · simp [hb]
    · rw [if_neg hb] at hurl ⊢
      exact absurd (beq_iff_eq.mpr hurl) hb
  · intro hnone
    unfold update_conversation
    rw [hnone]
    have hall : ∀ r ∈ db.conversations, (r.web_chat_url == url) = false := by
      intro r hr
      rw [Bool.eq_false_iff]
      exact List.find?_eq_none.mp hnone r hr
    rw [map_ite_of_forall_false _ _ _ hall]

/-- Witness for C5: updating the cached conversation at URL `u` appends the
user question and the assistant answer to its message log. -/
theorem update_conversation_postcondition_witness :
    (update_conversation ⟨[⟨"h1", "u", "m", "t0"⟩], []⟩ "u" ⟨"user", "q"⟩ "ans" "t1").messages =
      [] ++ [⟨"h1", "user", "q"⟩, ⟨"h1", "assistant", "ans"⟩] :=
  ((update_conversation_postcondition ⟨[⟨"h1", "u", "m", "t0"⟩], []⟩ "u" "t1"
      ⟨"user", "q"⟩ "ans").1 ⟨"h1", "u", "m", "t0"⟩ (by decide)).1

/-! ### Streaming lemmas (claims C3 and C7) -/

/-- The assumed relation between successive snapshots of the response
container: the later text only ever appends to the earlier one. -/
def growsTo (a b : String) : Prop := ∃ t : List Char, b.data = a.data ++ t

/-- Python's `current[len(prev):]` recovers exactly the appended tail. -/
theorem pySlice_of_append (prev cur : String) (t : List Char)
    (h : cur.data = prev.data ++ t) : pySlice cur prev.length = String.mk t := by
  unfold pySlice
  rw [h]
  exact congrArg String.mk (List.drop_left _ _)

/-- Re-attaching the recovered tail to the previous snapshot gives the
current one. -/
theorem append_tail_eq (prev cur : String) (t : List Char)
    (h : cur.data = prev.data ++ t) : prev ++ String.mk t = cur := by
  apply String.ext
  rw [String.data_append, h]

/-- Loop entry with the counter at its bound: stop in the current state. -/
theorem stream_loop_cons_stop (cur : String) (marker : Bool) (rest : List (String × Bool))
    (prev : String) (count : Nat) (h : ¬count < 50) :
    stream_loop ((cur, marker) :: rest) prev count = ⟨[], prev, false, count⟩ := by
  simp [stream_loop, h]

/-- Unchanged content, marker present: yield nothing and stop complete. -/
theorem stream_loop_cons_eq_marker (cur : String) (rest : List (String × Bool))
    (prev : String) (count : Nat) (h : count < 50) (heq : cur = prev) :
    stream_loop ((cur, true) :: rest) prev count = ⟨[], prev, true, count⟩ := by
  simp [stream_loop, h, heq]

/-- Unchanged content, no marker: poll again with the counter bumped. -/
theorem stream_loop_cons_eq_next (cur : String) (rest : List (String × Bool))
    (prev : String) (count : Nat) (h : count < 50) (heq : cur = prev) :
    stream_loop ((cur, false) :: rest) prev count = stream_loop rest prev (count + 1) := by
  simp [stream_loop, h, heq]

/-- Changed content with an empty suffix diff, marker present. -/
theorem stream_loop_cons_shrunk_marker (cur : String) (rest : List (String × Bool))
    (prev : String) (count : Nat) (h : count < 50) (heq : ¬cur = prev)
    (hempty : pySlice cur prev.length = "") :
    stream_loop ((cur, true) :: rest) prev count = ⟨[], cur, true, 0⟩ := by
  simp [stream_loop, h, heq, hempty]

/-- Changed content with an empty suffix diff, no marker. -/
theorem stream_loop_cons_shrunk_next (cur : String) (rest : List (String × Bool))
    (prev : String) (count : Nat) (h : count < 50) (heq : ¬cur = prev)
    (hempty : pySlice cur prev.length = "") :
    stream_loop ((cur, false) :: rest) prev count = stream_loop rest cur 1 := by
  simp [stream_loop, h, heq, hempty]

/-- Grown content, marker present: yield the diff and stop complete. -/
theorem stream_loop_cons_grown_marker (cur : String) (rest : List (String × Bool))
    (prev : String) (count : Nat) (h : count < 50) (heq : ¬cur = prev)
    (hne : ¬pySlice cur prev.length = "") :
    stream_loop ((cur, true) :: rest) prev count =
      ⟨[pySlice cur prev.length], cur, true, 0⟩ := by
  simp [stream_loop, h, heq, hne]

/-- Grown content, no marker: yield the diff and poll again. -/
theorem stream_loop_cons_grown_next (cur : String) (rest : List (String × Bool))
    (prev : String) (count : Nat) (h : count < 50) (heq : ¬cur = prev)
    (hne : ¬pySlice cur prev.length = "") :
    stream_loop ((cur, false) :: rest) prev count =
      ⟨pySlice cur prev.length :: (stream_loop rest cur 1).increments,
       (stream_loop rest cur 1).prev, (stream_loop rest cur 1).complete,
       (stream_loop rest cur 1).count⟩ := by
  simp [stream_loop, h, heq, hne]

/-- No increment the polling loop yields is the empty string: the code only
yields `new_content` after checking `if new_content:`. -/
theorem stream_loop_increments_nonempty (polls : List (String × Bool)) :
    ∀ prev count, ∀ inc ∈ (stream_loop polls prev count).increments, inc ≠ "" := by
  induction polls with
  | nil => intro prev count inc hinc; simp [stream_loop] at hinc
  | cons p rest ih =>
    obtain ⟨cur, marker⟩ := p
    intro prev count inc hinc
    by_cases h50 : count < 50
    · by_cases heq : cur = prev
      · cases marker with
        | true => rw [stream_loop_cons_eq_marker cur rest prev count h50 heq] at hinc
                  simp at hinc
        | false => rw [stream_loop_cons_eq_next cur rest prev count h50 heq] at hinc
                   exact ih prev (count + 1) inc hinc
      · by_cases hempty : pySlice cur prev.length = ""
        · cases marker with
          | true => rw [stream_loop_cons_shrunk_marker cur rest prev count h50 heq hempty] at hinc
                    simp at hinc
          | false => rw [stream_loop_cons_shrunk_next cur rest prev count h50 heq hempty] at hinc
                     exact ih cur 1 inc hinc
        · cases marker with
          | true =>
            rw [stream_loop_cons_grown_marker cur rest prev count h50 heq hempty] at hinc
            simp only [List.mem_singleton] at hinc
            subst hinc
            exact hempty
          | false =>
            rw [stream_loop_cons_grown_next cur rest prev count h50 heq hempty] at hinc
            simp only [List.mem_cons] at hinc
            cases hinc with
            | inl h => subst h; exact hempty
            | inr h => exact ih cur 1 inc h
    · rw [stream_loop_cons_stop cur marker rest prev count h50] at hinc
      simp at hinc

/-- Concatenating the loop's increments onto the initial snapshot reproduces
its final snapshot, provided the polled texts only ever grow. -/
theorem stream_loop_concat (polls : List (String × Bool)) :
    ∀ prev count, List.Chain' growsTo (prev :: polls.map Prod.fst) →
      prev ++ concat_increments (stream_loop polls prev count).increments =
        (stream_loop polls prev count).prev := by
  induction polls with
  | nil =>
    intro prev count _
    apply String.ext
    simp [stream_loop, concat_increments, String.data_append]
  | cons p rest ih =>
    obtain ⟨cur, marker⟩ := p
    intro prev count hchain
    rw [List.map_cons, List.chain'_cons] at hchain
    obtain ⟨⟨t, ht⟩, hchain'⟩ := hchain
    by_cases h50 : count < 50
    case neg =>
      rw [stream_loop_cons_stop cur marker rest prev count h50]
      apply String.ext
      simp [concat_increments, String.data_append]
    by_cases heq : cur = prev
    · cases marker with
      | true =>
        rw [stream_loop_cons_eq_marker cur rest prev count h50 heq]
        apply String.ext
        simp [concat_increments, String.data_append]
      | false =>
        rw [stream_loop_cons_eq_next cur rest prev count h50 heq]
        exact ih prev (count + 1) (heq ▸ hchain')
    · have hslice := pySlice_of_append prev cur t ht
      by_cases hempty : pySlice cur prev.length = ""
      · exfalso
        rw [hslice] at hempty
        have ht0 : t = [] := congrArg String.data hempty
        exact heq (String.ext (by rw [ht, ht0, List.append_nil]))
      · cases marker with
        | true =>
          rw [stream_loop_cons_grown_marker cur rest prev count h50 heq hempty]
          show prev ++ concat_increments [pySlice cur prev.length] = cur
          rw [hslice]
          apply String.ext
          simp only [concat_increments, List.foldr, String.data_append]
          rw [ht]
          simp
        | false =>
          rw [stream_loop_cons_grown_next cur rest prev count h50 heq hempty]
          show prev ++ concat_increments (pySlice cur prev.length ::
              (stream_loop rest cur 1).increments) = (stream_loop rest cur 1).prev
          have hrec := ih cur 1 hchain'
          rw [show concat_increments (pySlice cur prev.length ::
              (stream_loop rest cur 1).increments) = pySlice cur prev.length ++
              concat_increments (stream_loop rest cur 1).increments from rfl,
            hslice, ← String.append_assoc, append_tail_eq prev cur t ht]
          exact hrec

/-- If the completion marker never appears in the polled trace, the loop
never sets `response_complete`. -/
theorem stream_loop_complete_false (polls : List (String × Bool)) :
    ∀ prev count, (∀ p ∈ polls, p.2 = false) →
      (stream_loop polls prev count).complete = false := by
  induction polls with
  | nil => intro prev count _; rfl
  | cons p rest ih =>
    obtain ⟨cur, marker⟩ := p
    intro prev count hnomark
    have hm : marker = false := hnomark (cur, marker) (List.mem_cons_self _ _)
    subst hm
    have hrest : ∀ q ∈ rest, q.2 = false := fun q hq => hnomark q (List.mem_cons_of_mem _ hq)
    by_cases h50 : count < 50
    · by_cases heq : cur = prev
      · rw [stream_loop_cons_eq_next cur rest prev count h50 heq]
        exact ih prev (count + 1) hrest
      · by_cases hempty : pySlice cur prev.length = ""
        · rw [stream_loop_cons_shrunk_next cur rest prev count h50 heq hempty]
          exact ih cur 1 hrest
        · rw [stream_loop_cons_grown_next cur rest prev count h50 heq hempty]
          exact ih cur 1 hrest
    · rw [stream_loop_cons_stop cur false rest prev count h50]

/-- Extending a snapshot chain with the loop's initial empty `prev_content`:
every string extends the empty string. -/
theorem chain_cons_empty (l : List String) (h : List.Chain' growsTo l) :
    List.Chain' growsTo ("" :: l) := by
  cases l with
  | nil => simp
  | cons a t => exact List.chain'_cons.mpr ⟨⟨a.data, rfl⟩, h⟩

/-! ### Claim C3 -/

/-- Claim C3: over any polled trace whose snapshots only ever append text,
the concatenation of all increments yielded by the `stream_response` polling
loop equals the loop's final snapshot text, and no yielded increment is
empty. -/
theorem stream_loop_reassembles_final_snapshot (polls : List (String × Bool))
    (hchain : List.Chain' growsTo (polls.map Prod.fst)) :
    concat_increments (stream_loop polls "" 0).increments = (stream_loop polls "" 0).prev ∧
    ∀ inc ∈ (stream_loop polls "" 0).increments, inc ≠ "" := by
  constructor
  · have h := stream_loop_concat polls "" 0 (chain_cons_empty _ hchain)
    rw [← h]
    apply String.ext
    simp [String.data_append]
  · exact stream_loop_increments_nonempty polls "" 0

/-- Witness for C3 (the scenario of spec section 8): snapshots
`"", "Hel", "Hello", "Hello there"` with the marker appearing at the last
poll reassemble to `"Hello there"` with no empty increment. -/
theorem stream_loop_reassembles_final_snapshot_witness :
    (concat_increments (stream_loop
        [("", false), ("Hel", false), ("Hello", false), ("Hello there", true)] "" 0).increments =
      (stream_loop
        [("", false), ("Hel", false), ("Hello", false), ("Hello there", true)] "" 0).prev ∧
    ∀ inc ∈ (stream_loop
        [("", false), ("Hel", false), ("Hello", false), ("Hello there", true)] "" 0).increments,
      inc ≠ "") ∧
    (stream_loop
        [("", false), ("Hel", false), ("Hello", false), ("Hello there", true)] "" 0).increments =
      ["Hel", "lo", " there"] := by
  refine ⟨stream_loop_reassembles_final_snapshot _ ?_, rfl⟩
  show List.Chain' growsTo ["", "Hel", "Hello", "Hello there"]
  refine List.chain'_cons.mpr ⟨⟨['H', 'e', 'l'], rfl⟩, ?_⟩
  refine List.chain'_cons.mpr ⟨⟨['l', 'o'], rfl⟩, ?_⟩
  refine List.chain'_cons.mpr ⟨⟨[' ', 't', 'h', 'e', 'r', 'e'], rfl⟩, ?_⟩
  simp

/-! ### Claim C7 -/

/-- Claim C7: when the stable-poll counter reaches its bound of 50 without
the completion marker ever appearing, `stream_response` stops with the
completion flag still unset, logs the non-fatal timeout warning instead of
raising (the model is total — no failure path exists after the loop), still
exposes every increment captured, and still persists the assembled
`prev_content` through `update_conversation`. -/
theorem stream_response_quiescence_fallback (db : DB) (now message chat_url : String)
    (full_messages : Option (List Message)) (polls : List (String × Bool))
    (hnomark : ∀ p ∈ polls, p.2 = false)
    (hcount : 50 ≤ (stream_loop polls "" 0).count) :
    (stream_response db now message false chat_url full_messages polls).warned = true ∧
    (stream_response db now message false chat_url full_messages polls).complete = false ∧
    (stream_response db now message false chat_url full_messages polls).increments =
      (stream_loop polls "" 0).increments ∧
    (stream_response db now message false chat_url full_messages polls).db =
      update_conversation db chat_url ⟨"user", message⟩ (stream_loop polls "" 0).prev now := by
  refine ⟨decide_eq_true hcount, ?_, rfl, rfl⟩
  exact stream_loop_complete_false polls "" 0 hnomark

/-- Witness for C7: fifty consecutive polls of an unchanged `"hello"` with no
marker drive the counter to the bound; the call warns, never confirms
completion, and persists `"hello"`. -/
theorem stream_response_quiescence_fallback_witness :
    (stream_response ⟨[], []⟩ "t0" "q" false "u" none
        (List.replicate 50 ("hello", false))).warned = true ∧
    (stream_response ⟨[], []⟩ "t0" "q" false "u" none
        (List.replicate 50 ("hello", false))).complete = false ∧
    (stream_response ⟨[], []⟩ "t0" "q" false "u" none
        (List.replicate 50 ("hello", false))).increments =
      (stream_loop (List.replicate 50 ("hello", false)) "" 0).increments ∧
    (stream_response ⟨[], []⟩ "t0" "q" false "u" none
        (List.replicate 50 ("hello", false))).db =
      update_conversation ⟨[], []⟩ "u" ⟨"user", "q"⟩
        (stream_loop (List.replicate 50 ("hello", false)) "" 0).prev "t0" :=
  stream_response_quiescence_fallback ⟨[], []⟩ "t0" "q" "u" none
    (List.replicate 50 ("hello", false)) (by decide) (by decide)

/-! ### Claim C6 -/

/-- The replay loop visits `full_messages[:-1]` in order and emits a send and
a completion wait for exactly the `user` turns. -/
theorem replay_foldl_characterization (l : List Message) :
    ∀ acc : List Action,
      l.foldl (fun acts msg =>
          if msg.role == "user"
          then acts ++ [Action.sendSingle msg.content, Action.waitComplete]
          else acts) acc =
        acc ++ (l.filter fun m => m.role == "user").flatMap
          (fun m => [Action.sendSingle m.content, Action.waitComplete]) := by
  induction l with
  | nil => intro acc; simp
  | cons m t ih =>
    intro acc
    by_cases hm : (m.role == "user") = true
    · simp only [List.foldl_cons, hm, if_pos, List.filter_cons, List.flatMap_cons]
      rw [ih]
      simp [List.append_assoc]
    · rw [Bool.not_eq_true] at hm
      simp only [List.foldl_cons, hm, Bool.false_eq_true, if_false, List.filter_cons]
      rw [ih]

/-- Claim C6: on a new conversation with a non-empty prior history, exactly
the prior turns (all of `full_messages` but the last) whose role is `user`
are sent through the driver, in their original order, each followed by a wait
for the visible completion indicator; assistant turns are never replayed;
afterwards the final message is sent (`send_message`) or submitted
(`stream_response`) and the cache's `update_conversation` is called with the
final user message and the response text. -/
theorem replay_exactly_prior_user_turns (db : DB) (now message chat_url final_response : String)
    (l : List Message) (polls : List (String × Bool)) (hl : l ≠ []) :
    (send_message db now message true chat_url (some l) final_response).actions =
        ((l.dropLast.filter fun m => m.role == "user").flatMap
          fun m => [Action.sendSingle m.content, Action.waitComplete]) ++
          [Action.sendSingle message] ∧
    (send_message db now message true chat_url (some l) final_response).db =
        update_conversation db chat_url ⟨"user", message⟩ final_response now ∧
    (stream_response db now message true chat_url (some l) polls).actions =
        ((l.dropLast.filter fun m => m.role == "user").flatMap
          fun m => [Action.sendSingle m.content, Action.waitComplete]) ++
          [Action.submitFinal message] ∧
    (stream_response db now message true chat_url (some l) polls).db =
        update_conversation db chat_url ⟨"user", message⟩
          (stream_loop polls "" 0).prev now := by
  have hempty : l.isEmpty = false := by
    cases l with
    | nil => exact absurd rfl hl
    | cons a t => rfl
  have hreplay : replay_prior_user_turns l =
      (l.dropLast.filter fun m => m.role == "user").flatMap
        fun m => [Action.sendSingle m.content, Action.waitComplete] := by
    unfold replay_prior_user_turns
    rw [replay_foldl_characterization, List.nil_append]
  refine ⟨?_, rfl, ?_, rfl⟩
  · show (if true && !l.isEmpty then replay_prior_user_turns l else []) ++
        [Action.sendSingle message] = _
    rw [hempty]
    simp [hreplay]
  · show (if true && !l.isEmpty then replay_prior_user_turns l else []) ++
        [Action.submitFinal message] = _
    rw [hempty]
    simp [hreplay]

/-- Witness for C6: a five-turn history replays its first two user turns
(with waits), skips the assistant turns, then sends the final message. -/
theorem replay_exactly_prior_user_turns_witness :
    (send_message ⟨[⟨"h1", "u", "m", "t0"⟩], []⟩ "t1" "final q" true "u"
        (some [⟨"user", "a"⟩, ⟨"assistant", "b"⟩, ⟨"user", "c"⟩, ⟨"assistant", "d"⟩,
               ⟨"user", "final q"⟩]) "resp").actions =
      [Action.sendSingle "a", Action.waitComplete,
       Action.sendSingle "c", Action.waitComplete,
       Action.sendSingle "final q"] := by
  have h := (replay_exactly_prior_user_turns ⟨[⟨"h1", "u", "m", "t0"⟩], []⟩ "t1" "final q" "u"
    "resp" [⟨"user", "a"⟩, ⟨"assistant", "b"⟩, ⟨"user", "c"⟩, ⟨"assistant", "d"⟩,
            ⟨"user", "final q"⟩] [] (by decide)).1
  rw [h]
  rfl

/-! ### Claim C2, amended: determinism, and injectivity on separator-free
inputs -/

/-- The serialized conversation string written front-to-back: the foldl of
`generate_conversation_hash` appends exactly these segments after the
`model:` header. -/
def serialize_messages : List Message → String
  | [] => ""
  | m :: rest => m.role ++ ":" ++ m.content ++ ";" ++ serialize_messages rest

theorem foldl_append_serialize (msgs : List Message) :
    ∀ init : String,
      msgs.foldl (fun s msg => s ++ msg.role ++ ":" ++ msg.content ++ ";") init =
        init ++ serialize_messages msgs := by
  induction msgs with
  | nil =>
    intro init
    apply String.ext
    simp [serialize_messages, String.data_append]
  | cons m t ih =>
    intro init
    rw [List.foldl_cons, ih, serialize_messages]
    apply String.ext
    simp [String.data_append, List.append_assoc]

/-- The fingerprint pre-image is the `model:` header followed by the message
serialization. -/
theorem generate_conversation_hash_eq (msgs : List Message) (model : String) :
    generate_conversation_hash msgs model = model ++ ":" ++ serialize_messages msgs :=
  foldl_append_serialize msgs (model ++ ":")

/-- The character stream of the message serialization, in the associativity
normal form the injectivity argument splits on. -/
def serialize_chars : List Message → List Char
  | [] => []
  | m :: rest => m.role.data ++ ':' :: (m.content.data ++ ';' :: serialize_chars rest)

theorem serialize_messages_data (msgs : List Message) :
    (serialize_messages msgs).data = serialize_chars msgs := by
  induction msgs with
  | nil => rfl
  | cons m t ih =>
    rw [serialize_messages, serialize_chars]
    have hcolon : (":" : String).data = [':'] := rfl
    have hsemi : (";" : String).data = [';'] := rfl
    simp [String.data_append, hcolon, hsemi, ih, List.append_assoc]

/-- Splitting two equal lists at a separator character occurring in neither
left part recovers equal left and right parts. -/
theorem append_sep_inj {α : Type} {c : α} {a b : List α} :
    ∀ {a' b' : List α}, c ∉ a → c ∉ a' → a ++ c :: b = a' ++ c :: b' → a = a' ∧ b = b' := by
  induction a with
  | nil =>
    intro a' b' _ ha' h
    cases a' with
    | nil => simpa using h
    | cons x t =>
      simp only [List.nil_append, List.cons_append, List.cons.injEq] at h
      exact absurd (h.1 ▸ List.mem_cons_self x t) ha'
  | cons x t ih =>
    intro a' b' ha ha' h
    cases a' with
    | nil =>
      simp only [List.cons_append, List.nil_append, List.cons.injEq] at h
      exact absurd (h.1.symm ▸ List.mem_cons_self x t) ha
    | cons y u =>
      simp only [List.cons_append, List.cons.injEq] at h
      obtain ⟨hxy, hrest⟩ := h
      have htail := ih (fun hc => ha (List.mem_cons_of_mem x hc))
        (fun hc => ha' (List.mem_cons_of_mem y hc)) hrest
      exact ⟨by rw [hxy, htail.1], htail.2⟩

/-- A message is separator-free when its role contains no `:` and its content
no `;` — the serialization of `generate_conversation_hash` is unambiguous on
such messages. -/
def message_separator_free (m : Message) : Prop :=
  ':' ∉ m.role.data ∧ ';' ∉ m.content.data

instance (m : Message) : Decidable (message_separator_free m) := by
  unfold message_separator_free
  infer_instance

theorem serialize_chars_injective (ms1 : List Message) :
    ∀ ms2 : List Message, (∀ m ∈ ms1, message_separator_free m) →
      (∀ m ∈ ms2, message_separator_free m) →
      serialize_chars ms1 = serialize_chars ms2 → ms1 = ms2 := by
  induction ms1 with
  | nil =>
    intro ms2 _ _ h
    cases ms2 with
    | nil => rfl
    | cons m t => exact absurd h.symm (by simp [serialize_chars])
  | cons m t ih =>
    intro ms2 h1 h2 h
    cases ms2 with
    | nil => exact absurd h (by simp [serialize_chars])
    | cons m' t' =>
      rw [serialize_chars, serialize_chars] at h
      have hm := h1 m (List.mem_cons_self m t)
      have hm' := h2 m' (List.mem_cons_self m' t')
      obtain ⟨hrole, h'⟩ := append_sep_inj hm.1 hm'.1 h
      obtain ⟨hcontent, htail⟩ := append_sep_inj hm.2 hm'.2 h'
      have hmsg : m = m' := by
        cases m; cases m'
        simp only [Message.mk.injEq]
        exact ⟨String.ext hrole, String.ext hcontent⟩
      have hrest : t = t' := ih t' (fun x hx => h1 x (List.mem_cons_of_mem m hx))
        (fun x hx => h2 x (List.mem_cons_of_mem m' hx)) htail
      rw [hmsg, hrest]

/-- Claim C2 amended: the fingerprint is deterministic (equal inputs always
yield the identical digest), and it is injective on inputs in which the model
contains no `:`, each role contains no `:` and each content contains no `;`;
for general inputs injectivity fails, because the `:`/`;`-delimited
serialization is ambiguous (see the counterexample), and any such
serialization collision is a digest collision. -/
theorem generate_conversation_hash_inj_of_separator_free
    (ms1 ms2 : List Message) (model1 model2 : String)
    (hmod1 : ':' ∉ model1.data) (hmod2 : ':' ∉ model2.data)
    (h1 : ∀ m ∈ ms1, message_separator_free m) (h2 : ∀ m ∈ ms2, message_separator_free m) :
    generate_conversation_hash ms1 model1 = generate_conversation_hash ms2 model2 ↔
      ms1 = ms2 ∧ model1 = model2 := by
  constructor
  · intro h
    rw [generate_conversation_hash_eq, generate_conversation_hash_eq] at h
    have hd := congrArg String.data h
    have hcolon : (":" : String).data = [':'] := rfl
    simp only [String.data_append, hcolon, List.append_assoc, List.singleton_append]
      at hd
    obtain ⟨hmodel, hser⟩ := append_sep_inj hmod1 hmod2 hd
    rw [serialize_messages_data, serialize_messages_data] at hser
    exact ⟨serialize_chars_injective ms1 ms2 h1 h2 hser, String.ext hmodel⟩
  · rintro ⟨rfl, rfl⟩
    rfl

/-- Witness for the amended C2: two separator-free histories differing only
in one content have distinct fingerprints (and the iff's other direction
gives determinism). -/
theorem generate_conversation_hash_inj_witness :
    (generate_conversation_hash [⟨"user", "hi"⟩] "aipi" =
        generate_conversation_hash [⟨"user", "hello"⟩] "aipi") ↔
      ([⟨"user", "hi"⟩] : List Message) = [⟨"user", "hello"⟩] ∧ ("aipi" : String) = "aipi" :=
  generate_conversation_hash_inj_of_separator_free _ _ _ _
    (by decide) (by decide) (by decide) (by decide)

end Aipi
